import Mathlib

/-!
Verification of the page renderer in `src/output.rs`.

Strings from the Rust code are embedded as `List Char`.  Styled terminal
output is modelled by giving each style a concrete pair of marker
character lists (`Style.pre`, `Style.post`); `paint` wraps a text in those
markers exactly as `yansi`'s `Style::paint(..).to_string()` brackets a text
in its escape codes.  With this model every function of the renderer maps
character lists to character lists, just like the `String`-valued Rust
code, so nested highlight passes and the post-highlight string replaces of
`add_example` are embedded verbatim.

Helper characters that the scanner of this development writes via
`Char.ofNat`: 123 is an opening curly brace, 125 a closing curly brace,
92 a backslash, 96 a backtick.
-/

namespace Tlrc

/-- Opening curly brace character. -/
def obr : Char := Char.ofNat 123

/-- Closing curly brace character. -/
def cbr : Char := Char.ofNat 125

/-- Backslash character. -/
def bsl : Char := Char.ofNat 92

/-- Backtick character, the `EXAMPLE` constant of `output.rs`. -/
def btk : Char := Char.ofNat 96

/-- Greater-than character, the end token of the URL pair. -/
def gtC : Char := '>'

/-- Style of a span of terminal output: `pre`/`post` are the concrete
escape sequences emitted before and after the painted text. -/
structure Style where
  pre : List Char
  post : List Char
  deriving DecidableEq

/-- Model of `style.paint(s).to_string()`: the text bracketed by the
style's escape sequences. -/
def paint (st : Style) (s : List Char) : List Char :=
  st.pre ++ s ++ st.post

/-- The style with empty escape sequences; painting with it is the
identity, so evaluating the renderer at this style yields the raw text
content with all styling stripped. -/
def emptySty : Style := ⟨[], []⟩

/-- All indices `i ≤ s.length` at which `pat` occurs as a substring of
`s`, in increasing order. -/
def occList (pat s : List Char) : List Nat :=
  (List.range (s.length + 1)).filter (fun i => pat.isPrefixOf (s.drop i))

/-- Model of Rust `str::contains`: some occurrence of `pat` exists. -/
def containsTok (pat s : List Char) : Bool :=
  !(occList pat s).isEmpty

/-- Model of Rust `str::split_once(char)`: split at the first occurrence
of `c`, excluding `c` from both parts. -/
def splitOnceChar (c : Char) (s : List Char) : Option (List Char × List Char) :=
  match (occList [c] s).head? with
  | some i => some (s.take i, s.drop (i + 1))
  | none => none

/-- Greedy right-to-left disjoint selection from a decreasing list of
candidate match positions: a position is kept when its match of length
`plen` ends at or before the previously kept position.  This is the
match-selection discipline of Rust `str::rmatch_indices`. -/
def rGreedy (plen : Nat) : List Nat → Nat → List Nat
  | [], _ => []
  | i :: rest, bound =>
    if i + plen ≤ bound then i :: rGreedy plen rest i
    else rGreedy plen rest bound

/-- Model of Rust `s.rmatch_indices(pat)` collected to a list: the
disjoint matches of `pat` in `s`, scanned from the right, in the order
the iterator yields them (rightmost first). -/
def rmatchList (pat s : List Char) : List Nat :=
  rGreedy pat.length ((occList pat s).reverse) s.length

/-- Model of `s.rmatch_indices(pat).last().map(|m| m.0)`: the final index
yielded by the reverse match iterator, i.e. the leftmost of the disjoint
matches found scanning from the end. -/
def rmatchLast (pat s : List Char) : Option Nat :=
  (rmatchList pat s).getLast?

/-- Fuel-indexed worker for `splitTok`; fuel `s.length` always
suffices because each step consumes at least one character. -/
def splitGo (pat : List Char) : Nat → List Char → List (List Char)
  | _, [] => [[]]
  | 0, s => [s]
  | f + 1, c :: cs =>
    if pat.isPrefixOf (c :: cs) then
      [] :: splitGo pat f ((c :: cs).drop pat.length)
    else
      match splitGo pat f cs with
      | [] => [[c]]
      | ch :: rest => (c :: ch) :: rest

/-- Model of Rust `s.split(pat).collect::<Vec<_>>()` for a nonempty
pattern: the chunks of `s` between the leftmost non-overlapping
occurrences of `pat`. -/
def splitTok (pat s : List Char) : List (List Char) :=
  splitGo pat s.length s

/-- Fuel-indexed worker for `replaceTok`. -/
def replaceGo (pat rep : List Char) : Nat → List Char → List Char
  | _, [] => []
  | 0, s => s
  | f + 1, c :: cs =>
    if pat.isPrefixOf (c :: cs) then
      rep ++ replaceGo pat rep f ((c :: cs).drop pat.length)
    else
      c :: replaceGo pat rep f cs

/-- Model of Rust `s.replace(pat, rep)` for a nonempty pattern: every
leftmost non-overlapping occurrence of `pat` is replaced by `rep`. -/
def replaceTok (pat rep s : List Char) : List Char :=
  replaceGo pat rep s.length s

/-- Model of Rust `char::is_whitespace`: true exactly on the code
points with the Unicode White_Space property (U+0009-U+000D, U+0020,
U+0085, U+00A0, U+1680, U+2000-U+200A, U+2028, U+2029, U+202F, U+205F,
U+3000). -/
def rustIsWhitespace (c : Char) : Bool :=
  c.toNat = 0x09 || c.toNat = 0x0A || c.toNat = 0x0B || c.toNat = 0x0C ||
  c.toNat = 0x0D || c.toNat = 0x20 || c.toNat = 0x85 || c.toNat = 0xA0 ||
  c.toNat = 0x1680 || (0x2000 <= c.toNat && c.toNat <= 0x200A) ||
  c.toNat = 0x2028 || c.toNat = 0x2029 || c.toNat = 0x202F ||
  c.toNat = 0x205F || c.toNat = 0x3000

/-- Model of Rust `str::trim_end`: remove trailing Unicode-whitespace
characters. -/
def trimEndL (s : List Char) : List Char :=
  (s.reverse.dropWhile rustIsWhitespace).reverse

/-- Model of Rust `str::strip_suffix(char)`. -/
def stripSuffixChar (c : Char) (s : List Char) : Option (List Char) :=
  match s.reverse with
  | [] => none
  | a :: t => if a = c then some t.reverse else none

/-- Model of Rust `str::strip_prefix(char)`. -/
def stripFrontChar (c : Char) (s : List Char) : Option (List Char) :=
  match s with
  | [] => none
  | a :: t => if a = c then some t else none

/-- Model of Rust `str::strip_prefix(&str)`. -/
def stripPreTok (pat s : List Char) : Option (List Char) :=
  if pat.isPrefixOf s then some (s.drop pat.length) else none

/-- Option-valued map over a list: a `none` (a would-be panic in the
Rust source) aborts the whole traversal. -/
def omapM (f : α → Option β) : List α → Option (List β)
  | [] => some []
  | a :: as => (f a).bind fun b => (omapM f as).map (b :: ·)

/-- The body of the asymmetric loop of `highlight` (`output.rs` lines
48-83) for one piece of the split: pieces containing the end token are
split into a highlighted part and a normal part, with the URL pair
re-adding the four dropped characters of "http"; pieces without the end
token are painted normal.  The two `unwrap`s of the source are modelled
by `none`. -/
def hlPiece (endTok : List Char) (sn sh : Style) (part : List Char) : Option (List Char) :=
  if containsTok endTok part then
    if endTok = [gtC] then
      match splitOnceChar gtC part with
      | some pr => some (paint sh (('h' :: 't' :: 't' :: 'p' :: []) ++ pr.1) ++ paint sn pr.2)
      | none => none
    else
      match rmatchLast endTok part with
      | some idx => some (paint sh (part.take idx) ++ paint sn ((part.drop idx).drop 2))
      | none => none
  else
    some (paint sn part)

/-- Model of `highlight` from `output.rs`: split on the start token;
if nothing was found paint the whole input normal; for a symmetric pair
paint the pieces alternately normal/highlighted; otherwise process each
piece with `hlPiece`.  A `none` result models a panic. -/
def highlight (startTok endTok s : List Char) (sn sh : Style) : Option (List Char) :=
  let split := splitTok startTok s
  if split.length = 1 then some (paint sn s)
  else if startTok = endTok then
    some (List.flatten (split.enum.map fun p => if p.1 % 2 = 0 then paint sn p.2 else paint sh p.2))
  else
    (omapM (hlPiece endTok sn sh) split).map List.flatten

/-- The `TITLE` prefix constant of `output.rs`. -/
def TITLE : List Char := ['#', ' ']

/-- The `DESC` prefix constant of `output.rs`. -/
def DESC : List Char := ['>', ' ']

/-- The `BULLET` prefix constant of `output.rs`. -/
def BULLET : List Char := ['-', ' ']

/-- The `"<http"` start token used by the URL highlight pass. -/
def urlStart : List Char := "<http".data

/-- The placeholder start token, two opening curly braces. -/
def phStart : List Char := [obr, obr]

/-- The placeholder end token, two closing curly braces. -/
def phEnd : List Char := [cbr, cbr]

/-- The escaped opening brace run of an example line. -/
def escOpen : List Char := [bsl, obr, bsl, obr]

/-- The escaped opening brace run padded with spaces. -/
def escOpenPad : List Char := [' ', bsl, obr, bsl, obr, ' ']

/-- The escaped closing brace run of an example line. -/
def escClose : List Char := [bsl, cbr, bsl, cbr]

/-- The escaped closing brace run padded with spaces. -/
def escClosePad : List Char := [' ', bsl, cbr, bsl, cbr, ' ']

/-- Semantic role of one line of a page. -/
inductive Role where
  | title
  | desc
  | bullet
  | exampleL
  | blank
  | invalid
  deriving DecidableEq

/-- Line classification, embedding the dispatch chain of `render`
(`output.rs` lines 312-329) in its priority order: `"# "`, then `"> "`,
then `"- "`, then a leading backtick, then all-whitespace, else invalid. -/
def classify (line : List Char) : Role :=
  if TITLE.isPrefixOf line then .title
  else if DESC.isPrefixOf line then .desc
  else if BULLET.isPrefixOf line then .bullet
  else if line.head? = some btk then .exampleL
  else if line.all rustIsWhitespace then .blank
  else .invalid

/-- The output-related configuration flags consumed by the renderer
(`cfg.output` in `output.rs`).  `examplePrefixText` is the configurable
replacement string for the leading hyphen of a bullet line. -/
structure OutputCfg where
  show_title : Bool
  compact : Bool
  platform_title : Bool
  show_hyphens : Bool
  examplePrefixText : List Char
  deriving DecidableEq

/-- Per-role indentation widths (`cfg.indent`); `exam` is the example
indentation. -/
structure IndentCfg where
  title : Nat
  description : Nat
  bullet : Nat
  exam : Nat
  deriving DecidableEq

/-- The configuration consumed by the renderer. -/
structure Config where
  output : OutputCfg
  indent : IndentCfg
  deriving DecidableEq

/-- The per-role style table (`RenderStyles` in `output.rs`); `exam` is
the example style. -/
structure RenderStyles where
  title : Style
  desc : Style
  bullet : Style
  exam : Style
  url : Style
  inline_code : Style
  placeholder : Style
  deriving DecidableEq

/-- Modelled from the spec: the parse error of the renderer.  The error
type itself lives in `error.rs`, outside the sources at hand; per the
spec a `ParseError` "carries path, 1-based line number, offending line
text, and a human-readable hint describing the expected grammar". -/
structure PageError where
  path : List Char
  lnum : Nat
  line : List Char
  msg : List Char
  deriving DecidableEq

/-- The grammar hint attached to the error for an invalid line. -/
def grammarMsg : List Char :=
  "\nEvery non-empty line must begin with either '# ', '> ', '- ' or '`'.".data

/-- The hint attached to the error for an example line without its
closing backtick. -/
def backtickMsg : List Char :=
  "\nEvery line with an example must end with a backtick '`'.".data

/-- Indentation helper, `" ".repeat(n)`. -/
def spaces (n : Nat) : List Char := List.replicate n ' '

/-- The text written for a title after the optional leading blank line:
indentation followed by the painted (optionally platform-qualified)
title, from `add_title`. -/
def titleBody (cfg : Config) (sty : RenderStyles) (platform : Option (List Char))
    (l : List Char) : List Char :=
  spaces cfg.indent.title ++
    paint sty.title
      (if cfg.output.platform_title then
        match platform with
        | some p => p ++ ['/'] ++ l
        | none => l
      else l)

/-- Model of `add_title`: nothing when titles are hidden; otherwise an
optional blank line (suppressed in compact mode), then the indented
painted title.  The `strip_prefix(TITLE).unwrap()` of the source is the
`stripPreTok`; `none` models its panic. -/
def addTitle (cfg : Config) (sty : RenderStyles) (platform : Option (List Char))
    (line : List Char) : Option (List Char) :=
  if !cfg.output.show_title then some []
  else
    (stripPreTok TITLE line).map fun l =>
      (if !cfg.output.compact then ['\n'] else []) ++ titleBody cfg sty platform l

/-- Model of `add_desc`: strip the `"> "` prefix, run the URL highlight
pass, run the inline-code highlight pass on its painted output, and
indent. -/
def addDesc (cfg : Config) (sty : RenderStyles) (line : List Char) : Option (List Char) :=
  (stripPreTok DESC line).bind fun l =>
  (highlight urlStart [gtC] l sty.desc sty.url).bind fun inner =>
  (highlight [btk] [btk] inner sty.desc sty.inline_code).map fun outer =>
  spaces cfg.indent.description ++ outer

/-- Model of `add_bullet`: either replace the first two characters by the
configured example prefix text (`show_hyphens`) or strip `"- "`, then the
same two highlight passes as a description, and indent. -/
def addBullet (cfg : Config) (sty : RenderStyles) (line : List Char) : Option (List Char) :=
  (if cfg.output.show_hyphens then
    (if 2 ≤ line.length then some (cfg.output.examplePrefixText ++ line.drop 2) else none)
  else stripPreTok BULLET line).bind fun l =>
  (highlight urlStart [gtC] l sty.bullet sty.url).bind fun inner =>
  (highlight [btk] [btk] inner sty.bullet sty.inline_code).map fun outer =>
  spaces cfg.indent.bullet ++ outer

/-- The space padding of the escaped brace runs performed by
`add_example` before highlighting. -/
def padLine (line : List Char) : List Char :=
  replaceTok escClose escClosePad (replaceTok escOpen escOpenPad line)

/-- Model of `add_example`: pad the escaped brace runs, strip the leading
backtick (panic modelled by the outer `none`), trim trailing whitespace,
strip the trailing backtick (its absence is the parse error), run the
placeholder highlight pass, undo the padding on the painted output
(dropping the backslashes), indent, and append the newline of
`writeln!`. -/
def addExample (cfg : Config) (sty : RenderStyles) (path : List Char) (lnum : Nat)
    (line : List Char) : Option (Except PageError (List Char)) :=
  let padded := padLine line
  match stripFrontChar btk padded with
  | none => none
  | some body =>
    match stripSuffixChar btk (trimEndL body) with
    | none => some (.error ⟨path, lnum, padded, backtickMsg⟩)
    | some core =>
      (highlight phStart phEnd core sty.exam sty.placeholder).map fun hl =>
        .ok (spaces cfg.indent.exam ++
          replaceTok escClosePad phEnd (replaceTok escOpenPad phStart hl) ++ ['\n'])

/-- Model of `add_newline`: one newline unless compact mode is on. -/
def addNewline (cfg : Config) : List Char :=
  if !cfg.output.compact then ['\n'] else []

/-- Model of the `render` loop over the remaining lines of the page,
carrying the 1-based number of the next line to be read.  Output written
before a failure is discarded (the buffered sink is only flushed on
success).  The outer `Option` models panics, the inner `Except` the
`Result` of the source. -/
def renderLines (cfg : Config) (sty : RenderStyles) (path : List Char)
    (platform : Option (List Char)) (lnum : Nat) :
    List (List Char) → Option (Except PageError (List Char))
  | [] => some (.ok (addNewline cfg))
  | line :: rest =>
    match classify line with
    | .title =>
      (addTitle cfg sty platform line).bind fun out =>
      (renderLines cfg sty path platform (lnum + 1) rest).map fun r => r.map (out ++ ·)
    | .desc =>
      (addDesc cfg sty line).bind fun out =>
      (renderLines cfg sty path platform (lnum + 1) rest).map fun r => r.map (out ++ ·)
    | .bullet =>
      (addBullet cfg sty line).bind fun out =>
      (renderLines cfg sty path platform (lnum + 1) rest).map fun r => r.map (out ++ ·)
    | .exampleL =>
      (addExample cfg sty path lnum line).bind fun res =>
      match res with
      | .error e => some (.error e)
      | .ok out =>
        (renderLines cfg sty path platform (lnum + 1) rest).map fun r => r.map (out ++ ·)
    | .blank =>
      (renderLines cfg sty path platform (lnum + 1) rest).map fun r =>
        r.map (addNewline cfg ++ ·)
    | .invalid => some (.error ⟨path, lnum, line, grammarMsg⟩)

/-- Model of `render`: process all lines of the page starting at line
number 1; the final `addNewline` of the source is the base case of
`renderLines`. -/
def render (cfg : Config) (sty : RenderStyles) (path : List Char)
    (platform : Option (List Char)) (lines : List (List Char)) :
    Option (Except PageError (List Char)) :=
  renderLines cfg sty path platform 1 lines

/-! ## Utility lemmas -/

theorem mem_occList {pat s : List Char} {i : Nat} (h : i ∈ occList pat s) :
    pat.isPrefixOf (s.drop i) = true := by
  simp only [occList, List.mem_filter] at h
  exact h.2

theorem occ_decomp {pat s : List Char} {i : Nat} (h : pat.isPrefixOf (s.drop i) = true) :
    s = s.take i ++ pat ++ (s.drop i).drop pat.length := by
  rw [List.isPrefixOf_iff_prefix] at h
  obtain ⟨t, ht⟩ := h
  conv_lhs => rw [← List.take_append_drop i s]
  rw [← ht, List.drop_left, List.append_assoc]

theorem occ_le {pat s : List Char} {i : Nat} (h : i ∈ occList pat s) :
    i + pat.length ≤ s.length := by
  have h1 : i < s.length + 1 := by
    simp only [occList, List.mem_filter, List.mem_range] at h
    exact h.1
  have h2 := mem_occList h
  rw [List.isPrefixOf_iff_prefix] at h2
  have := h2.length_le
  simp only [List.length_drop] at this
  omega

theorem rGreedy_subset (plen : Nat) :
    ∀ (l : List Nat) (b : Nat) (i : Nat), i ∈ rGreedy plen l b → i ∈ l := by
  intro l
  induction l with
  | nil => intro b i h; simp [rGreedy] at h
  | cons a rest ih =>
    intro b i h
    rw [rGreedy] at h
    by_cases hc : a + plen ≤ b
    · rw [if_pos hc] at h
      rcases List.mem_cons.mp h with h | h
      · simp [h]
      · exact List.mem_cons_of_mem _ (ih a i h)
    · rw [if_neg hc] at h
      exact List.mem_cons_of_mem _ (ih b i h)

theorem rGreedy_cons_ne_nil {plen r b : Nat} {rest : List Nat} (h : r + plen ≤ b) :
    rGreedy plen (r :: rest) b ≠ [] := by
  simp [rGreedy, h]

theorem containsTok_occ {pat s : List Char} (h : containsTok pat s = true) :
    occList pat s ≠ [] := by
  simpa [containsTok] using h

theorem rmatchLast_spec {pat s : List Char} (h : containsTok pat s = true) :
    ∃ i, rmatchLast pat s = some i ∧ pat.isPrefixOf (s.drop i) = true := by
  have hocc : occList pat s ≠ [] := containsTok_occ h
  have hrev : (occList pat s).reverse ≠ [] := by simpa using hocc
  obtain ⟨r, rest, hr⟩ := List.exists_cons_of_ne_nil hrev
  have hrmem : r ∈ occList pat s := by
    rw [← List.mem_reverse, hr]
    exact List.mem_cons_self r rest
  have hle : r + pat.length ≤ s.length := occ_le hrmem
  have hne : rmatchList pat s ≠ [] := by
    rw [rmatchList, hr]
    exact rGreedy_cons_ne_nil hle
  refine ⟨(rmatchList pat s).getLast hne, List.getLast?_eq_getLast _ hne, ?_⟩
  have hmem : (rmatchList pat s).getLast hne ∈ rmatchList pat s := List.getLast_mem hne
  have hmem2 : (rmatchList pat s).getLast hne ∈ occList pat s := by
    unfold rmatchList at hmem
    have := rGreedy_subset pat.length ((occList pat s).reverse) s.length _ hmem
    exact List.mem_reverse.mp this
  exact mem_occList hmem2

theorem splitOnceChar_isSome {c : Char} {s : List Char} (h : containsTok [c] s = true) :
    (splitOnceChar c s).isSome = true := by
  have hocc : occList [c] s ≠ [] := containsTok_occ h
  obtain ⟨i, rest, hr⟩ := List.exists_cons_of_ne_nil hocc
  simp [splitOnceChar, hr]

theorem omapM_isSome {α β : Type} {f : α → Option β} :
    ∀ {l : List α}, (∀ a ∈ l, (f a).isSome = true) → (omapM f l).isSome = true := by
  intro l
  induction l with
  | nil => intro _; simp [omapM]
  | cons a as ih =>
    intro h
    obtain ⟨b, hb⟩ := Option.isSome_iff_exists.mp (h a (List.mem_cons_self a as))
    obtain ⟨bs, hbs⟩ :=
      Option.isSome_iff_exists.mp (ih fun x hx => h x (List.mem_cons_of_mem _ hx))
    simp [omapM, hb, hbs]

theorem hlPiece_isSome (endTok : List Char) (sn sh : Style) (part : List Char) :
    (hlPiece endTok sn sh part).isSome = true := by
  unfold hlPiece
  by_cases h : containsTok endTok part = true
  · rw [if_pos h]
    by_cases he : endTok = [gtC]
    · rw [if_pos he]
      subst he
      obtain ⟨pr, hpr⟩ := Option.isSome_iff_exists.mp (splitOnceChar_isSome h)
      simp [hpr]
    · rw [if_neg he]
      obtain ⟨i, hi, _⟩ := rmatchLast_spec h
      simp [hi]
  · rw [if_neg h]
    simp

theorem highlight_isSome (startTok endTok s : List Char) (sn sh : Style) :
    (highlight startTok endTok s sn sh).isSome = true := by
  unfold highlight
  by_cases h1 : (splitTok startTok s).length = 1
  · simp [h1]
  · rw [if_neg h1]
    by_cases h2 : startTok = endTok
    · simp [h2]
    · rw [if_neg h2]
      simp only [Option.isSome_map']
      exact omapM_isSome fun part _ => hlPiece_isSome endTok sn sh part

/-- Sample normal style with distinctive marker sequences. -/
def snX : Style := ⟨"[n:".data, "]".data⟩

/-- Sample highlighted style with distinctive marker sequences. -/
def shX : Style := ⟨"[h:".data, "]".data⟩

/-! ## Claims about `highlight` -/

/-- C9: `highlight` never panics: the `unwrap` after `split_once('>')`
and the `unwrap` after `rmatch_indices(end).last()` are guarded by
`part.contains(end)`, which guarantees a match, so for every input and
every delimiter pair used by the renderer (inline code, URL,
placeholder) the result is `some`. -/
theorem highlight_no_panic (s : List Char) (sn sh : Style) :
    (highlight [btk] [btk] s sn sh).isSome = true ∧
    (highlight urlStart [gtC] s sn sh).isSome = true ∧
    (highlight phStart phEnd s sn sh).isSome = true :=
  ⟨highlight_isSome _ _ s sn sh, highlight_isSome _ _ s sn sh, highlight_isSome _ _ s sn sh⟩

/-- C1 counterexample: in the piece `"a}} }} x"` (arising after the
first piece of splitting `"{{a}} }} x"` on `"{{"`), the rightmost
occurrence of `"}}"` is at index 4, but the code splits at index 1 (the
final index yielded by the reverse disjoint match iterator), so the
highlighted prefix is `"a"` and not `"a}} "`. -/
theorem c1_rightmost_cex :
    rmatchLast phEnd ('a' :: cbr :: cbr :: ' ' :: cbr :: cbr :: ' ' :: 'x' :: []) = some 1 ∧
    (occList phEnd ('a' :: cbr :: cbr :: ' ' :: cbr :: cbr :: ' ' :: 'x' :: [])).getLast? =
      some 4 ∧
    highlight phStart phEnd "\x7b\x7ba\x7d\x7d \x7d\x7d x".data snX shX =
      some "[n:][h:a][n: \x7d\x7d x]".data ∧
    highlight phStart phEnd "\x7b\x7ba\x7d\x7d \x7d\x7d x".data snX shX ≠
      some ("[n:]".data ++ "[h:a\x7d\x7d ]".data ++ "[n: x]".data) :=
  ⟨by decide, by decide, by decide, by decide⟩

/-- C1 (amended): for every piece after the first produced by splitting
the input on `"{{"` that contains `"}}"`, the piece is split into a
highlighted prefix and a normal suffix at the index delivered by
`rmatch_indices("}}").last()` — the leftmost of the disjoint matches
found scanning from the right (for a piece with a single match this is
the rightmost occurrence) — and the two characters of `"}}"` at the
split point appear in neither side. -/
theorem c1_placeholder_split (s p : List Char) (sn sh : Style)
    (hp : p ∈ (splitTok phStart s).tail)
    (hc : containsTok phEnd p = true) :
    ∃ i, rmatchLast phEnd p = some i ∧
      p = p.take i ++ phEnd ++ (p.drop i).drop 2 ∧
      hlPiece phEnd sn sh p =
        some (paint sh (p.take i) ++ paint sn ((p.drop i).drop 2)) := by
  obtain ⟨i, hi, hpre⟩ := rmatchLast_spec hc
  refine ⟨i, hi, occ_decomp hpre, ?_⟩
  unfold hlPiece
  rw [if_pos hc, if_neg (by decide : ¬(phEnd = [gtC])), hi]

/-- Witness for C1 at the piece `"cc}} "` of `"{{cc}} "`. -/
theorem c1_placeholder_split_witness :
    ("cc\x7d\x7d ".data ∈ (splitTok phStart "\x7b\x7bcc\x7d\x7d ".data).tail) ∧
    containsTok phEnd "cc\x7d\x7d ".data = true ∧
    (∃ i, rmatchLast phEnd "cc\x7d\x7d ".data = some i ∧
      "cc\x7d\x7d ".data =
        ("cc\x7d\x7d ".data).take i ++ phEnd ++ (("cc\x7d\x7d ".data).drop i).drop 2 ∧
      hlPiece phEnd snX shX "cc\x7d\x7d ".data =
        some (paint shX (("cc\x7d\x7d ".data).take i) ++
          paint snX ((("cc\x7d\x7d ".data).drop i).drop 2))) :=
  ⟨by decide, by decide,
    c1_placeholder_split "\x7b\x7bcc\x7d\x7d ".data _ snX shX (by decide) (by decide)⟩

/-- C2 counterexample: stripping the styling from the URL highlight of
`"More info: <https://example.com>."` yields the text without the angle
brackets, not the original string: the `<` of the consumed start token
is never re-added and the `>` is dropped by `split_once`. -/
theorem c2_roundtrip_cex :
    highlight urlStart [gtC] "More info: <https://example.com>.".data emptySty emptySty =
      some "More info: https://example.com.".data ∧
    "More info: https://example.com.".data ≠ "More info: <https://example.com>.".data :=
  ⟨by decide, by decide⟩

/-- C2 (amended): the URL pass on `"More info: <https://example.com>."`
paints exactly `https://example.com` highlighted and the leading text
and the trailing `.` normal; the concatenated text content equals the
original with the `<` and `>` around the URL removed. -/
theorem c2_url_segments (sn sh : Style) :
    highlight urlStart [gtC] "More info: <https://example.com>.".data sn sh =
      some (paint sn "More info: ".data ++ paint sh "https://example.com".data ++
        paint sn ".".data) ∧
    highlight urlStart [gtC] "More info: <https://example.com>.".data emptySty emptySty =
      some "More info: https://example.com.".data := by
  constructor
  · have base : highlight urlStart [gtC] "More info: <https://example.com>.".data sn sh =
        some (List.flatten [paint sn "More info: ".data,
          paint sh "https://example.com".data ++ paint sn ".".data]) := rfl
    rw [base]
    simp
  · decide

/-- C3 counterexample: stripping the styling from the inline-code pass
on `"aa `bb` cc `dd` ee"` yields the text without the backticks (the
split consumes them), not the original string. -/
theorem c3_roundtrip_cex :
    highlight [btk] [btk] "aa `bb` cc `dd` ee".data emptySty emptySty =
      some "aa bb cc dd ee".data ∧
    "aa bb cc dd ee".data ≠ "aa `bb` cc `dd` ee".data :=
  ⟨by decide, by decide⟩

/-- C3 (amended): the symmetric pass on `"aa `bb` cc `dd` ee"` yields
five segments styled normal, highlighted, normal, highlighted, normal in
order; the concatenated text content equals the original with the four
backtick delimiters removed. -/
theorem c3_symmetric_segments (sn sh : Style) :
    highlight [btk] [btk] "aa `bb` cc `dd` ee".data sn sh =
      some (paint sn "aa ".data ++ paint sh "bb".data ++ paint sn " cc ".data ++
        paint sh "dd".data ++ paint sn " ee".data) ∧
    highlight [btk] [btk] "aa `bb` cc `dd` ee".data emptySty emptySty =
      some "aa bb cc dd ee".data := by
  constructor
  · have base : highlight [btk] [btk] "aa `bb` cc `dd` ee".data sn sh =
        some (List.flatten [paint sn "aa ".data, paint sh "bb".data, paint sn " cc ".data,
          paint sh "dd".data, paint sn " ee".data]) := rfl
    rw [base]
    simp
  · decide

/-- C5 counterexample: on `"{{a}}}"` the code highlights `"a}"` (the
first closing brace belongs to the placeholder content, per the comment
in the source) and leaves nothing after the terminator, rather than
highlighting `"a"` with one brace left over as normal text. -/
theorem c5_triple_brace_cex :
    highlight phStart phEnd "\x7b\x7ba\x7d\x7d\x7d".data snX shX =
      some "[n:][h:a\x7d][n:]".data ∧
    highlight phStart phEnd "\x7b\x7ba\x7d\x7d\x7d".data snX shX ≠
      some ("[n:]".data ++ "[h:a]".data ++ "[n:\x7d]".data) :=
  ⟨by decide, by decide⟩

/-- C5 (amended): on `"{{a}}}"` exactly `"a}"` is painted with the
placeholder style — the final two braces are the terminator and the
first closing brace is inside the highlighted span — and no text remains
after the terminator. -/
theorem c5_triple_brace (sn sh : Style) :
    highlight phStart phEnd "\x7b\x7ba\x7d\x7d\x7d".data sn sh =
      some (paint sn [] ++ paint sh ('a' :: cbr :: []) ++ paint sn []) := by
  have base : highlight phStart phEnd "\x7b\x7ba\x7d\x7d\x7d".data sn sh =
      some (List.flatten [paint sn [], paint sh ('a' :: cbr :: []) ++ paint sn []]) := rfl
  rw [base]
  simp

/-! ## Lemmas about padding, trimming and the example-line check -/

theorem isPrefixOf_cons_false {a c : Char} {as l : List Char} (h : (a == c) = false) :
    (a :: as).isPrefixOf (c :: l) = false := by
  show ((a == c) && as.isPrefixOf l) = false
  rw [h, Bool.false_and]

theorem replaceTok_cons_notMatch {pat rep : List Char} {c : Char} {cs : List Char}
    (h : pat.isPrefixOf (c :: cs) = false) :
    replaceTok pat rep (c :: cs) = c :: replaceTok pat rep cs := by
  unfold replaceTok
  show replaceGo pat rep (cs.length + 1) (c :: cs) = c :: replaceGo pat rep cs.length cs
  rw [replaceGo, if_neg (by simp [h])]

theorem replaceGo_filter (pat rep : List Char) (q : Char → Bool)
    (hq : rep.filter q = pat.filter q) :
    ∀ (f : Nat) (s : List Char), (replaceGo pat rep f s).filter q = s.filter q := by
  intro f
  induction f with
  | zero => intro s; cases s <;> simp [replaceGo]
  | succ f ih =>
    intro s
    cases s with
    | nil => simp [replaceGo]
    | cons c cs =>
      rw [replaceGo]
      by_cases h : pat.isPrefixOf (c :: cs) = true
      · rw [if_pos h]
        have hd : c :: cs = pat ++ (c :: cs).drop pat.length := by
          have := @occ_decomp pat (c :: cs) 0 (by simpa using h)
          simpa using this
        rw [List.filter_append, ih, hq]
        conv_rhs => rw [hd]
        rw [List.filter_append]
      · rw [if_neg h]
        simp [List.filter_cons, ih]

theorem head?_dropWhile_filter {α : Type} (p : α → Bool) (l : List α) :
    (l.dropWhile p).head? = (l.filter (fun a => !p a)).head? := by
  induction l with
  | nil => simp
  | cons a t ih =>
    by_cases h : p a = true
    · simp [List.dropWhile_cons, List.filter_cons, h, ih]
    · simp [List.dropWhile_cons, List.filter_cons, h]

theorem trimEnd_getLast? (s : List Char) :
    (trimEndL s).getLast? = (s.filter (fun c => !rustIsWhitespace c)).getLast? := by
  rw [trimEndL, List.getLast?_reverse, head?_dropWhile_filter, List.filter_reverse,
    List.head?_reverse]

theorem stripSuffixChar_eq_none {c : Char} {s : List Char} (h : s.getLast? ≠ some c) :
    stripSuffixChar c s = none := by
  unfold stripSuffixChar
  cases hrev : s.reverse with
  | nil => rfl
  | cons a t =>
    have ha : s.getLast? = some a := by
      rw [← List.head?_reverse, hrev, List.head?_cons]
    have hac : ¬(a = c) := fun hh => h (by rw [ha, hh])
    simp [hac]

/-- C6 (amended): an example line (leading backtick) whose text, after
trimming trailing whitespace, does not end with a backtick makes
rendering fail immediately with a parse error carrying the document
path, the current 1-based line number, the line text as held by the
renderer after escaped-brace padding (identical to the offending line
whenever it contains no escaped braces), and the closing-backtick hint;
no further line is processed. -/
theorem c6_example_backtick (cfg : Config) (sty : RenderStyles) (path : List Char)
    (platform : Option (List Char)) (lnum : Nat) (line : List Char) (rest : List (List Char))
    (h1 : line.head? = some btk)
    (h2 : (trimEndL line).getLast? ≠ some btk) :
    renderLines cfg sty path platform lnum (line :: rest) =
      some (.error ⟨path, lnum, padLine line, backtickMsg⟩) := by
  obtain ⟨t, rfl⟩ : ∃ t, line = btk :: t := by
    cases line with
    | nil => simp at h1
    | cons a t =>
      simp only [List.head?_cons, Option.some.injEq] at h1
      exact ⟨t, by rw [h1]⟩
  have hT : TITLE.isPrefixOf (btk :: t) = false := isPrefixOf_cons_false (by decide)
  have hD : DESC.isPrefixOf (btk :: t) = false := isPrefixOf_cons_false (by decide)
  have hB : BULLET.isPrefixOf (btk :: t) = false := isPrefixOf_cons_false (by decide)
  have hcl : classify (btk :: t) = .exampleL := by
    unfold classify
    rw [if_neg (by simp [hT]), if_neg (by simp [hD]), if_neg (by simp [hB]),
      if_pos (show (btk :: t).head? = some btk from rfl)]
  have r1 : replaceTok escOpen escOpenPad (btk :: t) = btk :: replaceTok escOpen escOpenPad t :=
    replaceTok_cons_notMatch (isPrefixOf_cons_false (by decide))
  have r2 : replaceTok escClose escClosePad (btk :: replaceTok escOpen escOpenPad t) =
      btk :: replaceTok escClose escClosePad (replaceTok escOpen escOpenPad t) :=
    replaceTok_cons_notMatch (isPrefixOf_cons_false (by decide))
  have hpadB : padLine (btk :: t) =
      btk :: replaceTok escClose escClosePad (replaceTok escOpen escOpenPad t) := by
    unfold padLine
    rw [r1, r2]
  have hfil : (padLine (btk :: t)).filter (fun c => !rustIsWhitespace c) =
      (btk :: t).filter (fun c => !rustIsWhitespace c) := by
    unfold padLine replaceTok
    rw [replaceGo_filter _ _ _ (by decide), replaceGo_filter _ _ _ (by decide)]
  have hlast : (trimEndL (replaceTok escClose escClosePad
      (replaceTok escOpen escOpenPad t))).getLast? ≠ some btk := by
    rw [trimEnd_getLast?]
    intro hcon
    apply h2
    rw [trimEnd_getLast?]
    have e1 : (btk :: t).filter (fun c => !rustIsWhitespace c) =
        btk :: (replaceTok escClose escClosePad
          (replaceTok escOpen escOpenPad t)).filter (fun c => !rustIsWhitespace c) := by
      rw [← hfil, hpadB, List.filter_cons]
      simp [show rustIsWhitespace btk = false from by decide]
    rw [e1]
    cases hu : (replaceTok escClose escClosePad
        (replaceTok escOpen escOpenPad t)).filter (fun c => !rustIsWhitespace c) with
    | nil => rw [hu] at hcon; simp at hcon
    | cons a l =>
      rw [hu] at hcon
      rw [List.getLast?_cons_cons]
      exact hcon
  have hstrip : stripSuffixChar btk (trimEndL (replaceTok escClose escClosePad
      (replaceTok escOpen escOpenPad t))) = none := stripSuffixChar_eq_none hlast
  have haddex : addExample cfg sty path lnum (btk :: t) =
      some (.error ⟨path, lnum, padLine (btk :: t), backtickMsg⟩) := by
    unfold addExample
    rw [hpadB]
    simp only [stripFrontChar, eq_self_iff_true, if_true, hstrip]
  simp only [renderLines, hcl]
  rw [haddex]
  rfl

theorem isPrefixOf_head_ne {a b : Char} {as bs l : List Char} (hab : (a == b) = false)
    (h : (a :: as).isPrefixOf l = true) : (b :: bs).isPrefixOf l = false := by
  cases l with
  | nil => simp [List.isPrefixOf] at h
  | cons c t =>
    have h' : ((a == c) && as.isPrefixOf t) = true := h
    have h1 : (a == c) = true := (Bool.and_eq_true _ _ |>.mp h').1
    have ha : a = c := eq_of_beq h1
    show ((b == c) && bs.isPrefixOf t) = false
    have hbc : (b == c) = false := by
      cases hb2 : (b == c) with
      | false => rfl
      | true =>
        have hb3 : b = c := eq_of_beq hb2
        rw [ha, hb3] at hab
        simp at hab
    rw [hbc, Bool.false_and]

/-- C7: line classification is total and deterministic in the fixed
priority order of `render`: a `"# "` line is a title, a `"> "` line a
description, a `"- "` line a bullet, a backtick-led line an example, a
whitespace-only line (including the empty line) blank, and any other
line is invalid and makes rendering fail with the grammar parse error. -/
theorem c7_classification :
    (∀ line : List Char, TITLE.isPrefixOf line = true → classify line = .title) ∧
    (∀ line : List Char, DESC.isPrefixOf line = true → classify line = .desc) ∧
    (∀ line : List Char, BULLET.isPrefixOf line = true → classify line = .bullet) ∧
    (∀ line : List Char, line.head? = some btk → classify line = .exampleL) ∧
    (∀ line : List Char, line.all rustIsWhitespace = true → classify line = .blank) ∧
    (∀ line : List Char, line.all rustIsWhitespace = false →
      TITLE.isPrefixOf line = false → DESC.isPrefixOf line = false →
      BULLET.isPrefixOf line = false → line.head? ≠ some btk →
      classify line = .invalid) ∧
    (∀ (cfg : Config) (sty : RenderStyles) (path : List Char) (platform : Option (List Char))
      (lnum : Nat) (line : List Char) (rest : List (List Char)),
      classify line = .invalid →
      renderLines cfg sty path platform lnum (line :: rest) =
        some (.error ⟨path, lnum, line, grammarMsg⟩)) := by
  refine ⟨?_, ?_, ?_, ?_, ?_, ?_, ?_⟩
  · intro line h
    simp [classify, h]
  · intro line h
    have hT : TITLE.isPrefixOf line = false := isPrefixOf_head_ne (by decide) h
    simp [classify, hT, h]
  · intro line h
    have hT : TITLE.isPrefixOf line = false := isPrefixOf_head_ne (by decide) h
    have hD : DESC.isPrefixOf line = false := isPrefixOf_head_ne (by decide) h
    simp [classify, hT, hD, h]
  · intro line h
    obtain ⟨t, rfl⟩ : ∃ t, line = btk :: t := by
      cases line with
      | nil => simp at h
      | cons a t =>
        simp only [List.head?_cons, Option.some.injEq] at h
        exact ⟨t, by rw [h]⟩
    have hT : TITLE.isPrefixOf (btk :: t) = false := isPrefixOf_cons_false (by decide)
    have hD : DESC.isPrefixOf (btk :: t) = false := isPrefixOf_cons_false (by decide)
    have hB : BULLET.isPrefixOf (btk :: t) = false := isPrefixOf_cons_false (by decide)
    simp [classify, hT, hD, hB]
  · intro line h
    cases line with
    | nil => decide
    | cons c cs =>
      have hc : rustIsWhitespace c = true := by
        simp only [List.all_cons, Bool.and_eq_true] at h
        exact h.1
      have hne : ∀ x : Char, rustIsWhitespace x = false → (x == c) = false := by
        intro x hx
        cases hb : (x == c) with
        | false => rfl
        | true =>
          have hxc : x = c := eq_of_beq hb
          rw [hxc] at hx
          rw [hx] at hc
          exact absurd hc (by simp)
      have hT : TITLE.isPrefixOf (c :: cs) = false := isPrefixOf_cons_false (hne '#' (by decide))
      have hD : DESC.isPrefixOf (c :: cs) = false := isPrefixOf_cons_false (hne '>' (by decide))
      have hB : BULLET.isPrefixOf (c :: cs) = false :=
        isPrefixOf_cons_false (hne '-' (by decide))
      have hcb : ¬(c = btk) := by
        intro hh
        rw [hh] at hc
        exact absurd hc (by decide)
      simp [classify, hT, hD, hB, hcb, h]
  · intro line hall hT hD hB hbtk
    simp [classify, hT, hD, hB, hbtk, hall]
  · intro cfg sty path platform lnum line rest hinv
    simp only [renderLines, hinv]

/-- C8: with compact mode on, no blank line is emitted before the title,
nothing for a blank line, and nothing for the final trailing pass; with
compact mode off, exactly one newline precedes the (shown) title and
exactly one newline is emitted per blank line and for the trailing pass
at end of render. -/
theorem c8_compaction :
    (∀ cfg : Config, addNewline cfg = if cfg.output.compact then [] else ['\n']) ∧
    (∀ (cfg : Config) (sty : RenderStyles) (path : List Char) (platform : Option (List Char))
      (lnum : Nat), renderLines cfg sty path platform lnum [] =
        some (.ok (if cfg.output.compact then [] else ['\n']))) ∧
    (∀ (cfg : Config) (sty : RenderStyles) (platform : Option (List Char)) (line : List Char),
      cfg.output.show_title = true → TITLE.isPrefixOf line = true →
      addTitle cfg sty platform line =
        some ((if cfg.output.compact then [] else ['\n']) ++
          titleBody cfg sty platform (line.drop 2))) ∧
    (∀ (cfg : Config) (sty : RenderStyles) (path : List Char) (platform : Option (List Char))
      (lnum : Nat) (line : List Char) (rest : List (List Char)),
      classify line = .blank →
      renderLines cfg sty path platform lnum (line :: rest) =
        (renderLines cfg sty path platform (lnum + 1) rest).map fun r =>
          r.map (fun o => (if cfg.output.compact then [] else ['\n']) ++ o)) := by
  have hnl : ∀ cfg : Config, addNewline cfg = if cfg.output.compact then [] else ['\n'] := by
    intro cfg
    cases hcpt : cfg.output.compact <;> simp [addNewline, hcpt]
  refine ⟨hnl, ?_, ?_, ?_⟩
  · intro cfg sty path platform lnum
    simp only [renderLines, hnl]
  · intro cfg sty platform line hshow hpre
    unfold addTitle
    rw [hshow]
    simp only [stripPreTok, hpre, if_true, Option.map_some']
    cases hcpt : cfg.output.compact <;> simp [hcpt, TITLE]
  · intro cfg sty path platform lnum line rest hblank
    simp only [renderLines, hblank, hnl]

/-- C10: with the show-title flag disabled, a title line produces no
output at all — not even the blank line of non-compact mode — and
rendering of the remaining lines is unaffected. -/
theorem c10_hidden_title :
    (∀ (cfg : Config) (sty : RenderStyles) (platform : Option (List Char)) (line : List Char),
      cfg.output.show_title = false → addTitle cfg sty platform line = some []) ∧
    (∀ (cfg : Config) (sty : RenderStyles) (path : List Char) (platform : Option (List Char))
      (lnum : Nat) (line : List Char) (rest : List (List Char)),
      cfg.output.show_title = false → TITLE.isPrefixOf line = true →
      renderLines cfg sty path platform lnum (line :: rest) =
        renderLines cfg sty path platform (lnum + 1) rest) := by
  have h0 : ∀ (cfg : Config) (sty : RenderStyles) (platform : Option (List Char))
      (line : List Char), cfg.output.show_title = false →
      addTitle cfg sty platform line = some [] := by
    intro cfg sty platform line h
    simp [addTitle, h]
  refine ⟨h0, ?_⟩
  intro cfg sty path platform lnum line rest hshow hpre
  have hcl : classify line = .title := by simp [classify, hpre]
  simp only [renderLines, hcl, h0 cfg sty platform line hshow, Option.some_bind]
  cases renderLines cfg sty path platform (lnum + 1) rest with
  | none => rfl
  | some r => cases r with
    | error e => simp [Except.map]
    | ok o => simp [Except.map]

/-! ## Sample configurations and witnesses -/

instance {ε α : Type} [DecidableEq ε] [DecidableEq α] : DecidableEq (Except ε α) :=
  fun a b =>
  match a, b with
  | .error e, .error f =>
    if h : e = f then .isTrue (by rw [h]) else .isFalse (fun hh => h (by injection hh))
  | .ok x, .ok y =>
    if h : x = y then .isTrue (by rw [h]) else .isFalse (fun hh => h (by injection hh))
  | .error _, .ok _ => .isFalse (fun hh => by injection hh)
  | .ok _, .error _ => .isFalse (fun hh => by injection hh)


/-- Sample style table with distinctive marker sequences per role. -/
def styM : RenderStyles :=
  ⟨⟨"[t:".data, "]".data⟩, ⟨"[d:".data, "]".data⟩, ⟨"[b:".data, "]".data⟩,
    ⟨"[e:".data, "]".data⟩, ⟨"[u:".data, "]".data⟩, ⟨"[c:".data, "]".data⟩,
    ⟨"[p:".data, "]".data⟩⟩

/-- Sample configuration: titles shown, compact off, no indentation. -/
def cfgPlain : Config := ⟨⟨true, false, false, false, []⟩, ⟨0, 0, 0, 0⟩⟩

/-- Sample configuration with compact mode on. -/
def cfgCompact : Config := ⟨⟨true, true, false, false, []⟩, ⟨0, 0, 0, 0⟩⟩

/-- Sample configuration with the show-title flag disabled. -/
def cfgHid : Config := ⟨⟨false, false, false, false, []⟩, ⟨0, 0, 0, 0⟩⟩

/-- Witness for C6: the two-line page whose first line is "`abc" fails
at line number 7 (the running counter) with the padded line text. -/
theorem c6_example_backtick_witness :
    ("`abc\n".data.head? = some btk) ∧
    ((trimEndL "`abc\n".data).getLast? ≠ some btk) ∧
    renderLines cfgPlain styM "p".data none 7 ["`abc\n".data, "x\n".data] =
      some (.error ⟨"p".data, 7, padLine "`abc\n".data, backtickMsg⟩) :=
  ⟨by decide, by decide,
    c6_example_backtick cfgPlain styM "p".data none 7 "`abc\n".data ["x\n".data]
      (by decide) (by decide)⟩

/-- C6 counterexample: for an example line containing an escaped brace
run, the parse error does not carry the offending line text verbatim —
it carries the space-padded text produced by the escaped-brace
pre-processing. -/
theorem c6_offending_line_cex :
    renderLines cfgPlain styM "p".data none 1 ["`\\\x7b\\\x7bx\n".data] =
      some (.error ⟨"p".data, 1, "` \\\x7b\\\x7b x\n".data, backtickMsg⟩) ∧
    "` \\\x7b\\\x7b x\n".data ≠ "`\\\x7b\\\x7bx\n".data :=
  ⟨by decide, by decide⟩

/-- Witness for C7 at one concrete line of each role. -/
theorem c7_classification_witness :
    classify "# T\n".data = .title ∧
    classify "> d\n".data = .desc ∧
    classify "- b\n".data = .bullet ∧
    classify "`x`\n".data = .exampleL ∧
    classify " \n".data = .blank ∧
    classify "oops\n".data = .invalid ∧
    renderLines cfgPlain styM "p".data none 3 ["oops\n".data] =
      some (.error ⟨"p".data, 3, "oops\n".data, grammarMsg⟩) :=
  ⟨c7_classification.1 _ (by decide),
    c7_classification.2.1 _ (by decide),
    c7_classification.2.2.1 _ (by decide),
    c7_classification.2.2.2.1 _ (by decide),
    c7_classification.2.2.2.2.1 _ (by decide),
    c7_classification.2.2.2.2.2.1 _ (by decide) (by decide) (by decide) (by decide) (by decide),
    c7_classification.2.2.2.2.2.2 cfgPlain styM "p".data none 3 "oops\n".data [] (by decide)⟩

/-- Witness for C8 at concrete compact and non-compact configurations. -/
theorem c8_compaction_witness :
    (addNewline cfgCompact = if cfgCompact.output.compact then [] else ['\n']) ∧
    (renderLines cfgPlain styM "p".data none 4 [] =
      some (.ok (if cfgPlain.output.compact then [] else ['\n']))) ∧
    (cfgPlain.output.show_title = true ∧ TITLE.isPrefixOf "# T\n".data = true ∧
      addTitle cfgPlain styM none "# T\n".data =
        some ((if cfgPlain.output.compact then [] else ['\n']) ++
          titleBody cfgPlain styM none ("# T\n".data.drop 2))) ∧
    (classify " \n".data = .blank ∧
      renderLines cfgPlain styM "p".data none 1 [" \n".data] =
        (renderLines cfgPlain styM "p".data none 2 []).map fun r =>
          r.map (fun o => (if cfgPlain.output.compact then [] else ['\n']) ++ o)) :=
  ⟨c8_compaction.1 cfgCompact,
    c8_compaction.2.1 cfgPlain styM "p".data none 4,
    ⟨by decide, by decide, c8_compaction.2.2.1 cfgPlain styM none _ (by decide) (by decide)⟩,
    ⟨by decide, c8_compaction.2.2.2 cfgPlain styM "p".data none 1 " \n".data [] (by decide)⟩⟩

/-- Witness for C10 at a concrete hidden-title configuration. -/
theorem c10_hidden_title_witness :
    (cfgHid.output.show_title = false ∧ addTitle cfgHid styM none "# T\n".data = some []) ∧
    (TITLE.isPrefixOf "# T\n".data = true ∧
      renderLines cfgHid styM "p".data none 1 ["# T\n".data, " \n".data] =
        renderLines cfgHid styM "p".data none 2 [" \n".data]) :=
  ⟨⟨by decide, c10_hidden_title.1 cfgHid styM none _ (by decide)⟩,
    ⟨by decide,
      c10_hidden_title.2 cfgHid styM "p".data none 1 "# T\n".data [" \n".data]
        (by decide) (by decide)⟩⟩

/-- C4 counterexample: on the example line containing the escaped runs,
the rendered output does not contain the escaped text verbatim: the
backslashes are removed together with the padding (the source comment
says "Remove the extra spaces and backslashes"). -/
theorem c4_escape_verbatim_cex :
    addExample cfgPlain styM "p".data 1 "`\\\x7b\\\x7bliteral\\\x7d\\\x7d`\n".data =
      some (.ok "[e:\x7b\x7bliteral\x7d\x7d]\n".data) ∧
    containsTok escOpen "[e:\x7b\x7bliteral\x7d\x7d]\n".data = false ∧
    containsTok escClose "[e:\x7b\x7bliteral\x7d\x7d]\n".data = false :=
  ⟨by decide, by decide, by decide⟩

/-! ## Lemmas for the escaped-brace processing of example lines -/

theorem ne_beq_false {a c : Char} (h : a ≠ c) : (a == c) = false := by
  cases hb : (a == c) with
  | false => rfl
  | true => exact absurd (eq_of_beq hb) h

theorem isPrefixOf_cons2_false {a b c d : Char} {as l : List Char} (h : (b == d) = false) :
    (a :: b :: as).isPrefixOf (c :: d :: l) = false := by
  show ((a == c) && ((b == d) && as.isPrefixOf l)) = false
  rw [h, Bool.false_and, Bool.and_false]

theorem isPrefixOf_cons3_false {a b c d e f : Char} {as l : List Char} (h : (c == f) = false) :
    (a :: b :: c :: as).isPrefixOf (d :: e :: f :: l) = false := by
  show ((a == d) && ((b == e) && ((c == f) && as.isPrefixOf l))) = false
  rw [h, Bool.false_and, Bool.and_false, Bool.and_false]

theorem isPrefixOf_append_self (x y : List Char) : x.isPrefixOf (x ++ y) = true := by
  rw [List.isPrefixOf_iff_prefix]
  exact ⟨y, rfl⟩

theorem replaceGo_nil (pat rep : List Char) : ∀ f, replaceGo pat rep f [] = [] := by
  intro f
  cases f <;> rfl

theorem replaceGo_fuel_eq (pat rep : List Char) (hpat : pat ≠ []) :
    ∀ (n : Nat) (s : List Char), s.length ≤ n → ∀ f g, s.length ≤ f → s.length ≤ g →
      replaceGo pat rep f s = replaceGo pat rep g s := by
  have hp1 : 1 ≤ pat.length := by
    cases pat with
    | nil => exact absurd rfl hpat
    | cons a as => simp
  intro n
  induction n with
  | zero =>
    intro s hs f g _ _
    have : s = [] := List.eq_nil_of_length_eq_zero (Nat.le_zero.mp hs)
    subst this
    rw [replaceGo_nil, replaceGo_nil]
  | succ n ihn =>
    intro s hs f g hf hg
    cases s with
    | nil => rw [replaceGo_nil, replaceGo_nil]
    | cons c cs =>
      simp only [List.length_cons] at hs hf hg
      obtain ⟨f', rfl⟩ : ∃ f', f = f' + 1 := ⟨f - 1, by omega⟩
      obtain ⟨g', rfl⟩ : ∃ g', g = g' + 1 := ⟨g - 1, by omega⟩
      rw [replaceGo, replaceGo]
      by_cases h : pat.isPrefixOf (c :: cs) = true
      · rw [if_pos h, if_pos h]
        congr 1
        have hlen : ((c :: cs).drop pat.length).length = cs.length + 1 - pat.length := by
          simp [List.length_drop]
        exact ihn _ (by omega) f' g' (by omega) (by omega)
      · rw [if_neg h, if_neg h]
        congr 1
        exact ihn cs (by omega) f' g' (by omega) (by omega)

theorem replaceGo_fuel (pat rep : List Char) (hpat : pat ≠ []) (f : Nat) (s : List Char)
    (h : s.length ≤ f) : replaceGo pat rep f s = replaceTok pat rep s :=
  replaceGo_fuel_eq pat rep hpat s.length s (Nat.le_refl _) f s.length h (Nat.le_refl _)

theorem replaceTok_match_head {pat rep s : List Char} (hpat : pat ≠ [])
    (h : pat.isPrefixOf s = true) :
    replaceTok pat rep s = rep ++ replaceTok pat rep (s.drop pat.length) := by
  have hp1 : 1 ≤ pat.length := by
    cases pat with
    | nil => exact absurd rfl hpat
    | cons a as => simp
  cases s with
  | nil =>
    exfalso
    cases pat with
    | nil => exact hpat rfl
    | cons a as => simp [List.isPrefixOf] at h
  | cons c cs =>
    show replaceGo pat rep (cs.length + 1) (c :: cs) = _
    rw [replaceGo, if_pos h]
    congr 1
    apply replaceGo_fuel pat rep hpat
    simp only [List.length_drop, List.length_cons]
    omega

theorem replaceTok_no_head {a : Char} {as rep : List Char} :
    ∀ (x : List Char), (∀ c ∈ x, (a == c) = false) →
      replaceTok (a :: as) rep x = x := by
  intro x
  induction x with
  | nil => intro _; rfl
  | cons c t ih =>
    intro hx
    rw [replaceTok_cons_notMatch (isPrefixOf_cons_false (hx c (List.mem_cons_self c t))),
      ih (fun d hd => hx d (List.mem_cons_of_mem _ hd))]

theorem replaceTok_append_no_head {a : Char} {as rep : List Char} :
    ∀ (x y : List Char), (∀ c ∈ x, (a == c) = false) →
      replaceTok (a :: as) rep (x ++ y) = x ++ replaceTok (a :: as) rep y := by
  intro x y
  induction x with
  | nil => intro _; rfl
  | cons c t ih =>
    intro hx
    rw [List.cons_append,
      replaceTok_cons_notMatch (isPrefixOf_cons_false (hx c (List.mem_cons_self c t))),
      ih (fun d hd => hx d (List.mem_cons_of_mem _ hd))]
    rfl

theorem splitGo_no_occ (pat : List Char) :
    ∀ (f : Nat) (s : List Char), s.length ≤ f →
      (∀ i, pat.isPrefixOf (s.drop i) = false) → splitGo pat f s = [s] := by
  intro f
  induction f with
  | zero =>
    intro s hs _
    have : s = [] := List.eq_nil_of_length_eq_zero (Nat.le_zero.mp hs)
    subst this
    rfl
  | succ f ih =>
    intro s hs H
    cases s with
    | nil => rfl
    | cons c cs =>
      rw [splitGo]
      have h0 : pat.isPrefixOf (c :: cs) = false := by simpa using H 0
      rw [if_neg (by simp [h0])]
      rw [ih cs (by simp only [List.length_cons] at hs; omega) (fun i => by
        simpa using H (i + 1))]

theorem splitTok_no_occ {pat s : List Char} (H : ∀ i, pat.isPrefixOf (s.drop i) = false) :
    splitTok pat s = [s] :=
  splitGo_no_occ pat s.length s (Nat.le_refl _) H

theorem highlight_single (startTok endTok s : List Char) (sn sh : Style)
    (h : splitTok startTok s = [s]) :
    highlight startTok endTok s sn sh = some (paint sn s) := by
  simp [highlight, h]

theorem chain'_no_occ {a : Char} :
    ∀ (s : List Char), List.Chain' (fun x y => ¬(x = a ∧ y = a)) s →
      ∀ i, [a, a].isPrefixOf (s.drop i) = false := by
  intro s
  induction s with
  | nil =>
    intro _ i
    simp only [List.drop_nil]
    rfl
  | cons c t ih =>
    intro hch i
    cases i with
    | zero =>
      cases t with
      | nil =>
        show ((a == c) && ([a].isPrefixOf ([] : List Char))) = false
        rw [show ([a].isPrefixOf ([] : List Char)) = false from rfl, Bool.and_false]
      | cons d u =>
        have hR : ¬(c = a ∧ d = a) := (List.chain'_cons.mp hch).1
        show ((a == c) && ((a == d) && List.isPrefixOf [] u)) = false
        cases hac : (a == c) with
        | false => rw [Bool.false_and]
        | true =>
          cases had : (a == d) with
          | false => rw [Bool.false_and, Bool.and_false]
          | true => exact absurd ⟨(eq_of_beq hac).symm, (eq_of_beq had).symm⟩ hR
    | succ i =>
      rw [List.drop_succ_cons]
      exact ih (List.Chain'.tail hch) i

theorem chain'_of_not_mem {a : Char} :
    ∀ (w : List Char), (∀ c ∈ w, c ≠ a) →
      List.Chain' (fun x y => ¬(x = a ∧ y = a)) w := by
  intro w
  induction w with
  | nil => intro _; exact List.chain'_nil
  | cons c t ih =>
    intro hw
    rw [List.chain'_cons']
    refine ⟨?_, ih (fun d hd => hw d (List.mem_cons_of_mem _ hd))⟩
    intro y _ hcy
    exact hw c (List.mem_cons_self c t) hcy.1

theorem mem_of_getLast?_mem {x : Char} {l : List Char} (hx : x ∈ l.getLast?) : x ∈ l := by
  cases l with
  | nil => simp at hx
  | cons c t =>
    rw [List.getLast?_eq_getLast (c :: t) (by simp)] at hx
    simp only [Option.mem_def, Option.some.injEq] at hx
    exact hx ▸ List.getLast_mem _

theorem chain'_core {w : List Char} (hw : ∀ c ∈ w, c ≠ obr) :
    List.Chain' (fun x y => ¬(x = obr ∧ y = obr)) (escOpenPad ++ (w ++ escClosePad)) := by
  rw [List.chain'_append]
  refine ⟨by simp only [escOpenPad, List.chain'_cons, List.chain'_singleton]; decide, ?_, ?_⟩
  · rw [List.chain'_append]
    refine ⟨chain'_of_not_mem w hw,
      by simp only [escClosePad, List.chain'_cons, List.chain'_singleton]; decide, ?_⟩
    intro x hx y _ hxy
    exact hw x (mem_of_getLast?_mem hx) hxy.1
  · intro x hx y _ hxy
    have hxe : ' ' = x := by
      rw [show escOpenPad.getLast? = some ' ' from rfl] at hx
      simpa using hx
    rw [← hxe] at hxy
    exact absurd hxy.1 (by decide)

theorem no_phStart_occ {w : List Char} (hw : ∀ c ∈ w, c ≠ obr) :
    ∀ i, phStart.isPrefixOf ((escOpenPad ++ (w ++ escClosePad)).drop i) = false :=
  fun i => chain'_no_occ _ (chain'_core hw) i

theorem trimEndL_btk_nl (X : List Char) : trimEndL (X ++ [btk, '\n']) = X ++ [btk] := by
  unfold trimEndL
  rw [List.reverse_append]
  show (List.dropWhile rustIsWhitespace ('\n' :: btk :: X.reverse)).reverse = X ++ [btk]
  rw [List.dropWhile_cons_of_pos (by decide), List.dropWhile_cons_of_neg (by decide)]
  simp

theorem stripSuffixChar_btk (X : List Char) : stripSuffixChar btk (X ++ [btk]) = some X := by
  unfold stripSuffixChar
  rw [List.reverse_append]
  show (match btk :: X.reverse with
    | [] => none
    | a :: t => if a = btk then some t.reverse else none) = some X
  simp

theorem escOpenPad_sp_tail {post : List Char} (h : ∀ c ∈ post, (bsl == c) = false) :
    escOpenPad.isPrefixOf (' ' :: post) = false := by
  cases post with
  | nil => decide
  | cons p ps => exact isPrefixOf_cons2_false (h p (List.mem_cons_self p ps))

theorem skip_escOpenPad_escClose (rep rest : List Char) :
    replaceTok escClose rep (escOpenPad ++ rest) =
      escOpenPad ++ replaceTok escClose rep rest := by
  have h0 : replaceTok escClose rep (' ' :: (bsl :: obr :: bsl :: obr :: ' ' :: rest)) =
      ' ' :: replaceTok escClose rep (bsl :: obr :: bsl :: obr :: ' ' :: rest) :=
    replaceTok_cons_notMatch (isPrefixOf_cons_false (by decide))
  have h1 : replaceTok escClose rep (bsl :: (obr :: bsl :: obr :: ' ' :: rest)) =
      bsl :: replaceTok escClose rep (obr :: bsl :: obr :: ' ' :: rest) :=
    replaceTok_cons_notMatch (isPrefixOf_cons2_false (by decide))
  have h2 : replaceTok escClose rep (obr :: (bsl :: obr :: ' ' :: rest)) =
      obr :: replaceTok escClose rep (bsl :: obr :: ' ' :: rest) :=
    replaceTok_cons_notMatch (isPrefixOf_cons_false (by decide))
  have h3 : replaceTok escClose rep (bsl :: (obr :: ' ' :: rest)) =
      bsl :: replaceTok escClose rep (obr :: ' ' :: rest) :=
    replaceTok_cons_notMatch (isPrefixOf_cons2_false (by decide))
  have h4 : replaceTok escClose rep (obr :: (' ' :: rest)) =
      obr :: replaceTok escClose rep (' ' :: rest) :=
    replaceTok_cons_notMatch (isPrefixOf_cons_false (by decide))
  have h5 : replaceTok escClose rep (' ' :: rest) =
      ' ' :: replaceTok escClose rep rest :=
    replaceTok_cons_notMatch (isPrefixOf_cons_false (by decide))
  show replaceTok escClose rep (' ' :: bsl :: obr :: bsl :: obr :: ' ' :: rest) = _
  rw [h0, h1, h2, h3, h4, h5]
  rfl

theorem skip_escClosePad_escOpenPad {post : List Char} (rep : List Char)
    (hpost : ∀ c ∈ post, (bsl == c) = false) :
    replaceTok escOpenPad rep (escClosePad ++ post) =
      escClosePad ++ replaceTok escOpenPad rep post := by
  have h0 : replaceTok escOpenPad rep (' ' :: (bsl :: cbr :: bsl :: cbr :: ' ' :: post)) =
      ' ' :: replaceTok escOpenPad rep (bsl :: cbr :: bsl :: cbr :: ' ' :: post) :=
    replaceTok_cons_notMatch (isPrefixOf_cons3_false (by decide))
  have h1 : replaceTok escOpenPad rep (bsl :: (cbr :: bsl :: cbr :: ' ' :: post)) =
      bsl :: replaceTok escOpenPad rep (cbr :: bsl :: cbr :: ' ' :: post) :=
    replaceTok_cons_notMatch (isPrefixOf_cons_false (by decide))
  have h2 : replaceTok escOpenPad rep (cbr :: (bsl :: cbr :: ' ' :: post)) =
      cbr :: replaceTok escOpenPad rep (bsl :: cbr :: ' ' :: post) :=
    replaceTok_cons_notMatch (isPrefixOf_cons_false (by decide))
  have h3 : replaceTok escOpenPad rep (bsl :: (cbr :: ' ' :: post)) =
      bsl :: replaceTok escOpenPad rep (cbr :: ' ' :: post) :=
    replaceTok_cons_notMatch (isPrefixOf_cons_false (by decide))
  have h4 : replaceTok escOpenPad rep (cbr :: (' ' :: post)) =
      cbr :: replaceTok escOpenPad rep (' ' :: post) :=
    replaceTok_cons_notMatch (isPrefixOf_cons_false (by decide))
  have h5 : replaceTok escOpenPad rep (' ' :: post) =
      ' ' :: replaceTok escOpenPad rep post :=
    replaceTok_cons_notMatch (escOpenPad_sp_tail hpost)
  show replaceTok escOpenPad rep (' ' :: bsl :: cbr :: bsl :: cbr :: ' ' :: post) = _
  rw [h0, h1, h2, h3, h4, h5]
  rfl

theorem skip_phStart_escClosePad (rep rest : List Char) :
    replaceTok escClosePad rep (phStart ++ rest) =
      phStart ++ replaceTok escClosePad rep rest := by
  have h0 : replaceTok escClosePad rep (obr :: (obr :: rest)) =
      obr :: replaceTok escClosePad rep (obr :: rest) :=
    replaceTok_cons_notMatch (isPrefixOf_cons_false (by decide))
  have h1 : replaceTok escClosePad rep (obr :: rest) =
      obr :: replaceTok escClosePad rep rest :=
    replaceTok_cons_notMatch (isPrefixOf_cons_false (by decide))
  show replaceTok escClosePad rep (obr :: obr :: rest) = _
  rw [h0, h1]
  rfl

theorem padLine_family {w : List Char} (hbsl : ∀ c ∈ w, (bsl == c) = false) :
    padLine (btk :: (escOpen ++ (w ++ (escClose ++ [btk, '\n'])))) =
      btk :: (escOpenPad ++ (w ++ (escClosePad ++ [btk, '\n']))) := by
  unfold padLine
  have t1 : replaceTok escOpen escOpenPad
        (btk :: (escOpen ++ (w ++ (escClose ++ [btk, '\n'])))) =
      btk :: replaceTok escOpen escOpenPad (escOpen ++ (w ++ (escClose ++ [btk, '\n']))) :=
    replaceTok_cons_notMatch (isPrefixOf_cons_false (by decide))
  have t2 : replaceTok escOpen escOpenPad (escOpen ++ (w ++ (escClose ++ [btk, '\n']))) =
      escOpenPad ++ replaceTok escOpen escOpenPad
        ((escOpen ++ (w ++ (escClose ++ [btk, '\n']))).drop escOpen.length) := by
    exact replaceTok_match_head (by decide) (isPrefixOf_append_self _ _)
  rw [List.drop_left] at t2
  have t3 : replaceTok escOpen escOpenPad (w ++ (escClose ++ [btk, '\n'])) =
      w ++ replaceTok escOpen escOpenPad (escClose ++ [btk, '\n']) :=
    replaceTok_append_no_head w _ hbsl
  have t4 : replaceTok escOpen escOpenPad (escClose ++ [btk, '\n']) =
      escClose ++ [btk, '\n'] := by decide
  rw [t1, t2, t3, t4]
  have u1 : replaceTok escClose escClosePad
        (btk :: (escOpenPad ++ (w ++ (escClose ++ [btk, '\n'])))) =
      btk :: replaceTok escClose escClosePad (escOpenPad ++ (w ++ (escClose ++ [btk, '\n']))) :=
    replaceTok_cons_notMatch (isPrefixOf_cons_false (by decide))
  have u3 : replaceTok escClose escClosePad (w ++ (escClose ++ [btk, '\n'])) =
      w ++ replaceTok escClose escClosePad (escClose ++ [btk, '\n']) :=
    replaceTok_append_no_head w _ hbsl
  have u4 : replaceTok escClose escClosePad (escClose ++ [btk, '\n']) =
      escClosePad ++ [btk, '\n'] := by decide
  rw [u1, skip_escOpenPad_escClose, u3, u4]

/-- C4 (amended): for every example line consisting of a backtick, the
escaped run `\x7b\x7b`, inner text `w` free of spaces, opening braces
and backslashes, the escaped run `\x7d\x7d`, and a closing backtick,
under every configuration, path, line number, and example style whose
markers contain no space (nor a backslash in the closing marker):
example formatting pads the escaped runs with surrounding spaces before
the placeholder highlight pass; the pass finds no placeholder start and
treats the whole content as one normal example-styled span — the
escaped runs are never treated as placeholder delimiters; afterwards the
padding and the backslashes are removed, so plain literal braces appear,
unstyled, in place of the escaped runs. -/
theorem c4_escaped_braces (cfg : Config) (sty : RenderStyles) (path : List Char) (lnum : Nat)
    (w : List Char)
    (hw : ∀ c ∈ w, c ≠ ' ' ∧ c ≠ obr ∧ c ≠ bsl)
    (hpre : ∀ c ∈ sty.exam.pre, c ≠ ' ')
    (hpost : ∀ c ∈ sty.exam.post, c ≠ ' ' ∧ c ≠ bsl) :
    padLine (btk :: (escOpen ++ (w ++ (escClose ++ [btk, '\n'])))) =
      btk :: (escOpenPad ++ (w ++ (escClosePad ++ [btk, '\n']))) ∧
    addExample cfg sty path lnum (btk :: (escOpen ++ (w ++ (escClose ++ [btk, '\n'])))) =
      some (.ok (spaces cfg.indent.exam ++
        paint sty.exam (phStart ++ (w ++ phEnd)) ++ ['\n'])) := by
  have hbsl : ∀ c ∈ w, (bsl == c) = false :=
    fun c hc => ne_beq_false (fun he => (hw c hc).2.2 he.symm)
  have hsp : ∀ c ∈ w, (' ' == c) = false :=
    fun c hc => ne_beq_false (fun he => (hw c hc).1 he.symm)
  have hobr : ∀ c ∈ w, c ≠ obr := fun c hc => (hw c hc).2.1
  have hpreSp : ∀ c ∈ sty.exam.pre, (' ' == c) = false :=
    fun c hc => ne_beq_false (fun he => hpre c hc he.symm)
  have hpostSp : ∀ c ∈ sty.exam.post, (' ' == c) = false :=
    fun c hc => ne_beq_false (fun he => (hpost c hc).1 he.symm)
  have hpostBsl : ∀ c ∈ sty.exam.post, (bsl == c) = false :=
    fun c hc => ne_beq_false (fun he => (hpost c hc).2 he.symm)
  have hpad := padLine_family hbsl
  refine ⟨hpad, ?_⟩
  unfold addExample
  rw [hpad]
  have hu : escOpenPad ++ (w ++ (escClosePad ++ [btk, '\n'])) =
      (escOpenPad ++ (w ++ escClosePad)) ++ [btk, '\n'] := by
    simp [List.append_assoc]
  simp only [stripFrontChar, eq_self_iff_true, if_true, hu, trimEndL_btk_nl,
    stripSuffixChar_btk]
  rw [highlight_single _ _ _ _ _ (splitTok_no_occ (no_phStart_occ hobr))]
  simp only [Option.map_some']
  have hpaint : paint sty.exam (escOpenPad ++ (w ++ escClosePad)) =
      sty.exam.pre ++ (escOpenPad ++ (w ++ (escClosePad ++ sty.exam.post))) := by
    simp [paint, List.append_assoc]
  have hA : replaceTok escOpenPad phStart
        (sty.exam.pre ++ (escOpenPad ++ (w ++ (escClosePad ++ sty.exam.post)))) =
      sty.exam.pre ++ (phStart ++ (w ++ (escClosePad ++ sty.exam.post))) := by
    have a1 : replaceTok escOpenPad phStart
          (sty.exam.pre ++ (escOpenPad ++ (w ++ (escClosePad ++ sty.exam.post)))) =
        sty.exam.pre ++ replaceTok escOpenPad phStart
          (escOpenPad ++ (w ++ (escClosePad ++ sty.exam.post))) :=
      replaceTok_append_no_head _ _ hpreSp
    have a2 : replaceTok escOpenPad phStart
          (escOpenPad ++ (w ++ (escClosePad ++ sty.exam.post))) =
        phStart ++ replaceTok escOpenPad phStart
          ((escOpenPad ++ (w ++ (escClosePad ++ sty.exam.post))).drop escOpenPad.length) := by
      exact replaceTok_match_head (by decide) (isPrefixOf_append_self _ _)
    rw [List.drop_left] at a2
    have a3 : replaceTok escOpenPad phStart (w ++ (escClosePad ++ sty.exam.post)) =
        w ++ replaceTok escOpenPad phStart (escClosePad ++ sty.exam.post) :=
      replaceTok_append_no_head _ _ hsp
    have a4 : replaceTok escOpenPad phStart (escClosePad ++ sty.exam.post) =
        escClosePad ++ replaceTok escOpenPad phStart sty.exam.post :=
      skip_escClosePad_escOpenPad _ hpostBsl
    have a5 : replaceTok escOpenPad phStart sty.exam.post = sty.exam.post :=
      replaceTok_no_head _ hpostSp
    rw [a1, a2, a3, a4, a5]
  have hB : replaceTok escClosePad phEnd
        (sty.exam.pre ++ (phStart ++ (w ++ (escClosePad ++ sty.exam.post)))) =
      sty.exam.pre ++ (phStart ++ (w ++ (phEnd ++ sty.exam.post))) := by
    have b1 : replaceTok escClosePad phEnd
          (sty.exam.pre ++ (phStart ++ (w ++ (escClosePad ++ sty.exam.post)))) =
        sty.exam.pre ++ replaceTok escClosePad phEnd
          (phStart ++ (w ++ (escClosePad ++ sty.exam.post))) :=
      replaceTok_append_no_head _ _ hpreSp
    have b2 : replaceTok escClosePad phEnd (phStart ++ (w ++ (escClosePad ++ sty.exam.post))) =
        phStart ++ replaceTok escClosePad phEnd (w ++ (escClosePad ++ sty.exam.post)) :=
      skip_phStart_escClosePad _ _
    have b3 : replaceTok escClosePad phEnd (w ++ (escClosePad ++ sty.exam.post)) =
        w ++ replaceTok escClosePad phEnd (escClosePad ++ sty.exam.post) :=
      replaceTok_append_no_head _ _ hsp
    have b4 : replaceTok escClosePad phEnd (escClosePad ++ sty.exam.post) =
        phEnd ++ replaceTok escClosePad phEnd
          ((escClosePad ++ sty.exam.post).drop escClosePad.length) := by
      exact replaceTok_match_head (by decide) (isPrefixOf_append_self _ _)
    rw [List.drop_left] at b4
    have b5 : replaceTok escClosePad phEnd sty.exam.post = sty.exam.post :=
      replaceTok_no_head _ hpostSp
    rw [b1, b2, b3, b4, b5]
  rw [hpaint, hA, hB]
  simp [paint, List.append_assoc]

/-- Witness for C4 with inner text "literal", the plain configuration
and the marker style table. -/
theorem c4_escaped_braces_witness :
    (∀ c ∈ "literal".data, c ≠ ' ' ∧ c ≠ obr ∧ c ≠ bsl) ∧
    (∀ c ∈ styM.exam.pre, c ≠ ' ') ∧
    (∀ c ∈ styM.exam.post, c ≠ ' ' ∧ c ≠ bsl) ∧
    (padLine (btk :: (escOpen ++ ("literal".data ++ (escClose ++ [btk, '\n'])))) =
      btk :: (escOpenPad ++ ("literal".data ++ (escClosePad ++ [btk, '\n']))) ∧
    addExample cfgPlain styM "p".data 1
        (btk :: (escOpen ++ ("literal".data ++ (escClose ++ [btk, '\n'])))) =
      some (.ok (spaces cfgPlain.indent.exam ++
        paint styM.exam (phStart ++ ("literal".data ++ phEnd)) ++ ['\n']))) :=
  ⟨by decide, by decide, by decide,
    c4_escaped_braces cfgPlain styM "p".data 1 "literal".data
      (by decide) (by decide) (by decide)⟩


end Tlrc
